import Mathlib

/-!
Verification of the OCR-text segmentation pipeline of AutoEval-AgenticAI.

Shallow embedding of:
* `OCREngine.parse_exam_output` in `backend/app/agents/ocr_agent_qwen.py`
  (namespace `BackendOCR`);
* `OCREngine.parse_exam_output` in the top-level `ocr_agent_qwen.py`
  (namespace `RootOCR`);
* `parse_question_text` in `backend/app/agents/parser_agent.py`
  (namespace `ParserAgent`);
* the page assembly `'\n\n'.join(all_ocr_texts)` of `test_ocr_only.py`.

Strings are modelled as Lean `String`/`List Char`; Python regex matching on
the relevant patterns is unfolded into explicit character scanning (the
patterns involved are simple enough that greedy matching is deterministic;
the unfolding is justified case by case in comments).  `\d` and `\s` are
modelled over ASCII, which covers all characters the claims exercise.
-/

/-- Python `\s` / `str.strip` whitespace (ASCII fragment): space, tab,
newline, carriage return, vertical tab, form feed. -/
def pyIsSpace (c : Char) : Bool :=
  c = ' ' || c = '\t' || c = '\n' || c = '\r' || c = '\x0b' || c = '\x0c'

/-- Python `str.strip()` — drop whitespace from both ends. -/
def pyStrip (cs : List Char) : List Char :=
  ((cs.dropWhile pyIsSpace).reverse.dropWhile pyIsSpace).reverse

/-- Auxiliary for `splitLines`: accumulates the current line (reversed). -/
def splitLinesAux : List Char → List Char → List (List Char)
  | [], acc => [acc.reverse]
  | c :: tl, acc =>
      if c = '\n' then acc.reverse :: splitLinesAux tl []
      else splitLinesAux tl (c :: acc)

/-- Python `text.split("\n")`. -/
def splitLines (cs : List Char) : List (List Char) :=
  splitLinesAux cs []

/-- The lines of an input text, as the Python code computes them. -/
def linesOf (t : String) : List (List Char) :=
  splitLines t.data

/-- Python `sep.join(xs)`. -/
def joinSep (sep : List Char) : List (List Char) → List Char
  | [] => []
  | [x] => x
  | x :: y :: tl => x ++ sep ++ joinSep sep (y :: tl)

/-- Python-dict assignment `m[k] = v` on an insertion-ordered association
list: an existing key keeps its position and gets the new value, a new key
is appended at the end.  This is exactly CPython dict update semantics. -/
def dinsert {α : Type} (m : List (String × α)) (k : String) (v : α) :
    List (String × α) :=
  match m with
  | [] => [(k, v)]
  | (k', v') :: tl => if k' = k then (k, v) :: tl else (k', v') :: dinsert tl k v

/-- Association-list lookup (Python `m[k]` / `k in m`). -/
def dlookup {α : Type} (k : String) : List (String × α) → Option α
  | [] => none
  | (k', v) :: tl => if k' = k then some v else dlookup k tl

namespace BackendOCR

/-!
`backend/app/agents/ocr_agent_qwen.py`, `OCREngine.parse_exam_output`:

```python
structured_answers = {}
lines = ocr_text.split("\n")
current_question = None
current_answer = []
for line in lines:
    line = line.strip()
    if not line:
        continue
    question_match = re.match(r"^(?:Q|q)?\s*(\d+)[.)\s-]*(.*)$", line, re.IGNORECASE)
    if question_match:
        if current_question is not None:
            structured_answers[str(current_question)] = " ".join(current_answer).strip()
        current_question = question_match.group(1)
        remaining_text = question_match.group(2).strip()
        current_answer = [remaining_text] if remaining_text else []
    elif current_question is not None:
        current_answer.append(line)
if current_question is not None:
    structured_answers[str(current_question)] = " ".join(current_answer).strip()
return structured_answers
```
-/

/-- The separator class `[.)\s-]` of the backend label regex. -/
def isSep (c : Char) : Bool :=
  c = '.' || c = ')' || pyIsSpace c || c = '-'

/-- The part `\s*(\d+)[.)\s-]*(.*)$` of the backend regex, applied after the
optional leading `Q`/`q`.  All quantifiers are greedy and the character
classes `\s`, `\d`, `[.)\s-]` and `.*` chain deterministically (`\s` and
`\d` are disjoint, and `.*$` always succeeds), so greedy scanning computes
exactly the regex groups: group 1 is the maximal digit run, group 2 the
text after the maximal separator run. -/
def matchFrom (cs : List Char) : Option (List Char × List Char) :=
  let cs1 := cs.dropWhile pyIsSpace
  let digits := cs1.takeWhile Char.isDigit
  if digits.isEmpty then none
  else some (digits, (cs1.dropWhile Char.isDigit).dropWhile isSep)

/-- `re.match(r"^(?:Q|q)?\s*(\d+)[.)\s-]*(.*)$", line)`: if the line starts
with `Q`/`q` the regex engine consumes it (retrying without it cannot
succeed, since `Q` is neither whitespace nor a digit), otherwise it matches
from the start.  Returns `(group 1, group 2)` on success. -/
def matchLabel : List Char → Option (List Char × List Char)
  | [] => none
  | c :: tl => if c = 'Q' || c = 'q' then matchFrom tl else matchFrom (c :: tl)

/-- Document scan state of the backend parser: the structured-answers dict,
`current_question`, `current_answer`. -/
structure BState where
  m : List (String × String)
  curQ : Option String
  buf : List (List Char)
deriving DecidableEq, Repr

/-- `structured_answers[str(current_question)] = " ".join(current_answer).strip()`,
performed only when `current_question is not None`. -/
def flushB (st : BState) : List (String × String) :=
  match st.curQ with
  | some q => dinsert st.m q (String.mk (pyStrip (joinSep [' '] st.buf)))
  | none => st.m

/-- One iteration of the backend `for line in lines` loop. -/
def backendStep (st : BState) (rawLine : List Char) : BState :=
  let line := pyStrip rawLine
  if line.isEmpty then st
  else
    match matchLabel line with
    | some (digits, rest) =>
        let remaining := pyStrip rest
        { m := flushB st
          curQ := some (String.mk digits)
          buf := if remaining.isEmpty then [] else [remaining] }
    | none =>
        match st.curQ with
        | some _ => { st with buf := st.buf ++ [line] }
        | none => st

/-- The whole loop plus the final flush. -/
def backendScan (ls : List (List Char)) : List (String × String) :=
  flushB (ls.foldl backendStep ⟨[], none, []⟩)

/-- `OCREngine.parse_exam_output` (backend version). -/
def parse_exam_output (t : String) : List (String × String) :=
  backendScan (linesOf t)

end BackendOCR

/-- `'\n\n'.join(all_ocr_texts)` — page assembly from `test_ocr_only.py`. -/
def assemblePages (pages : List String) : String :=
  String.mk (joinSep ['\n', '\n'] (pages.map String.data))

namespace RootOCR

/-!
Top-level `ocr_agent_qwen.py`, `OCREngine.parse_exam_output`:

```python
structured = {}
lines = ocr_text.split('\n')
current_q = None
buffer = []
for line in lines:
    line = line.strip()
    if not line:
        continue
    if re.match(r'^(?:Q|Question)?\s*\(?\d+\)?[\.:)]', line, re.IGNORECASE):
        if current_q is not None:
            structured[str(current_q)] = '\n'.join(buffer).strip()
        qnum_match = re.search(r'\d+', line)
        current_q = qnum_match.group(0) if qnum_match else len(structured) + 1
        buffer = [line]
    else:
        buffer.append(line)
if current_q is not None:
    structured[str(current_q)] = '\n'.join(buffer).strip()
return structured
```
-/

/-- Case-insensitive character equality (`re.IGNORECASE`, ASCII fragment). -/
def ciEq (a b : Char) : Bool :=
  a.toLower = b.toLower

/-- Drop a case-insensitive literal pattern from the front of the input;
`none` when the input does not start with the pattern. -/
def dropCI : List Char → List Char → Option (List Char)
  | [], cs => some cs
  | _ :: _, [] => none
  | p :: ps, c :: cs => if ciEq p c then dropCI ps cs else none

/-- The part `\s*\(?\d+\)?[\.:)]` of the root label regex.  `\(?` consuming
an available `(` is without loss (backtracking to not consuming leaves
`\d+` facing `(`, which fails), and after the maximal digit run the tail
`\)?[\.:)]` succeeds exactly when the next character is `.`, `:` or `)`
(when `\)?` consumes a `)` whose successor fails the class, the engine
backtracks and the class itself consumes the `)`). -/
def topCore (cs : List Char) : Bool :=
  let cs1 := cs.dropWhile pyIsSpace
  let cs2 := match cs1 with
    | '(' :: tl => tl
    | _ => cs1
  let ds := cs2.takeWhile Char.isDigit
  if ds.isEmpty then false
  else
    match cs2.dropWhile Char.isDigit with
    | c :: _ => c = '.' || c = ':' || c = ')'
    | [] => false

/-- `re.match(r'^(?:Q|Question)?\s*\(?\d+\)?[\.:)]', line, re.IGNORECASE)`:
the alternation tries `Q`, then `Question`, then the empty prefix. -/
def topMatch (cs : List Char) : Bool :=
  match dropCI ['q'] cs with
  | some tl =>
      if topCore tl then true
      else
        match dropCI ['q', 'u', 'e', 's', 't', 'i', 'o', 'n'] cs with
        | some tl2 => if topCore tl2 then true else topCore cs
        | none => topCore cs
  | none => topCore cs

/-- `re.search(r'\d+', line)`: the leftmost maximal digit run. -/
def firstDigitRun : List Char → Option (List Char)
  | [] => none
  | c :: tl =>
      if c.isDigit then some (c :: tl.takeWhile Char.isDigit)
      else firstDigitRun tl

/-- Scan state of the root parser: `structured`, `current_q`, `buffer`. -/
structure TState where
  m : List (String × String)
  curQ : Option String
  buf : List (List Char)
deriving DecidableEq, Repr

/-- `structured[str(current_q)] = '\n'.join(buffer).strip()`, performed only
when `current_q is not None`. -/
def flushT (st : TState) : List (String × String) :=
  match st.curQ with
  | some q => dinsert st.m q (String.mk (pyStrip (joinSep ['\n'] st.buf)))
  | none => st.m

/-- One iteration of the root `for line in lines` loop.  (`str(current_q)`
is applied at flush time in the source; since `current_q` is only ever used
through `str`, the state stores the string directly, with `toString` applied
eagerly in the impossible `qnum_match is None` fallback.) -/
def rootStep (st : TState) (raw : List Char) : TState :=
  let line := pyStrip raw
  if line.isEmpty then st
  else if topMatch line then
    let m' := flushT st
    let q := match firstDigitRun line with
      | some ds => String.mk ds
      | none => toString (m'.length + 1)
    { m := m', curQ := some q, buf := [line] }
  else { st with buf := st.buf ++ [line] }

/-- The whole loop plus the final flush. -/
def rootScan (ls : List (List Char)) : List (String × String) :=
  flushT (ls.foldl rootStep ⟨[], none, []⟩)

/-- `OCREngine.parse_exam_output` (top-level version). -/
def parse_exam_output (t : String) : List (String × String) :=
  rootScan (linesOf t)

end RootOCR

namespace ParserAgent

/-!
`backend/app/agents/parser_agent.py`, `parse_question_text`:

```python
questions = {}
lines = text.split('\n')
current_question = None
current_data = {}
subject = "general"
text_lower = text.lower()
if "math" in text_lower or "mathematics" in text_lower:
    subject = "Mathematics"
elif "physics" in text_lower: subject = "Physics"
elif "chemistry" in text_lower: subject = "Chemistry"
elif "science" in text_lower: subject = "Science"
elif "english" in text_lower or "literature" in text_lower: subject = "English"
question_pattern = re.compile(r'^(?:Q(?:uestion)?\s*)?(\d+)\.?\s*(.*)$', re.IGNORECASE)
marks_pattern = re.compile(r'(\d+)\s*marks?', re.IGNORECASE)
for line in lines:
    line = line.strip()
    if not line:
        continue
    match = question_pattern.match(line)
    if match:
        if current_question and current_data:
            questions[current_question] = current_data
        current_question = f"Q{match.group(1)}"
        current_data = {"question": match.group(2).strip(), "ideal_answer": "", "marks": 1}
    elif current_question:
        marks_match = marks_pattern.search(line)
        if marks_match:
            current_data["marks"] = int(marks_match.group(1))
        else:
            if current_data["ideal_answer"]:
                current_data["ideal_answer"] += " " + line
            else:
                current_data["ideal_answer"] = line
if current_question and current_data:
    questions[current_question] = current_data
return {"subject": subject, "questions": questions}
```
-/

/-- Is the first list a (case-sensitive) prefix of the second? -/
def isPrefixList : List Char → List Char → Bool
  | [], _ => true
  | _ :: _, [] => false
  | a :: as, b :: bs => a = b && isPrefixList as bs

/-- Python `needle in hay` for strings (substring containment). -/
def listContains : List Char → List Char → Bool
  | [], needle => needle.isEmpty
  | h :: t, needle => isPrefixList needle (h :: t) || listContains t needle

/-- Python `text.lower()` (ASCII fragment). -/
def pyLower (cs : List Char) : List Char :=
  cs.map Char.toLower

/-- The subject-detection `if`/`elif` chain of `parse_question_text`. -/
def detectSubject (text : List Char) : String :=
  let tl := pyLower text
  if listContains tl "math".data || listContains tl "mathematics".data then
    "Mathematics"
  else if listContains tl "physics".data then "Physics"
  else if listContains tl "chemistry".data then "Chemistry"
  else if listContains tl "science".data then "Science"
  else if listContains tl "english".data || listContains tl "literature".data then
    "English"
  else "general"

/-- The part `(\d+)\.?\s*(.*)$` of the question regex, applied after the
optional prefix: the maximal digit run, then one optional `.`, then
whitespace, then the remainder (group 2). -/
def qTail (cs : List Char) : Option (List Char × List Char) :=
  let ds := cs.takeWhile Char.isDigit
  if ds.isEmpty then none
  else
    let after := cs.dropWhile Char.isDigit
    let after1 := match after with
      | '.' :: tl => tl
      | _ => after
    some (ds, after1.dropWhile pyIsSpace)

/-- `question_pattern.match(line)` for
`^(?:Q(?:uestion)?\s*)?(\d+)\.?\s*(.*)$` (IGNORECASE): the optional prefix
greedily tries `Question`, then `Q`, then nothing; after a consumed
`Q`/`Question` the inner `\s*` is absorbed into the prefix.  Whenever a
consumed prefix leaves no digit, the prefixless attempt also fails (the
line then starts with `Q`/`q`, not a digit), so the alternatives are
disjoint.  Returns `(group 1, group 2)`. -/
def matchQKey (cs : List Char) : Option (List Char × List Char) :=
  match RootOCR.dropCI ['q', 'u', 'e', 's', 't', 'i', 'o', 'n'] cs with
  | some tl =>
      match qTail (tl.dropWhile pyIsSpace) with
      | some r => some r
      | none =>
          match RootOCR.dropCI ['q'] cs with
          | some tl1 =>
              match qTail (tl1.dropWhile pyIsSpace) with
              | some r => some r
              | none => qTail cs
          | none => qTail cs
  | none =>
      match RootOCR.dropCI ['q'] cs with
      | some tl1 =>
          match qTail (tl1.dropWhile pyIsSpace) with
          | some r => some r
          | none => qTail cs
      | none => qTail cs

/-- Decimal value of a digit run (`int(...)` on a `\d+` group). -/
def digitsToNat (ds : List Char) : Nat :=
  ds.foldl (fun n c => n * 10 + (c.toNat - 48)) 0

/-- Does the input start with `mark` case-insensitively?  (`marks_pattern`
needs exactly this after the digit group and whitespace: the trailing `s?`
is optional and cannot affect match success.) -/
def startsWithMark (cs : List Char) : Bool :=
  (RootOCR.dropCI ['m', 'a', 'r', 'k'] cs).isSome

/-- `marks_pattern.search(line)` for `(\d+)\s*marks?` (IGNORECASE): the scan
tries each start position left to right; a position succeeds exactly when
it starts a digit run whose maximal extent is followed (after whitespace)
by `mark` (giving back digits cannot help, since a digit is neither
whitespace nor `m`), and group 1 is that run. -/
def searchMarks : List Char → Option Nat
  | [] => none
  | c :: tl =>
      if c.isDigit then
        if startsWithMark ((tl.dropWhile Char.isDigit).dropWhile pyIsSpace) then
          some (digitsToNat (c :: tl.takeWhile Char.isDigit))
        else searchMarks tl
      else searchMarks tl

/-- The `current_data` dict: question text, ideal answer, marks. -/
structure QData where
  question : String
  ideal_answer : String
  marks : Nat
deriving DecidableEq, Repr

/-- Scan state: `questions`, and `current_question` with its
`current_data` (both set together in the source). -/
structure QState where
  m : List (String × QData)
  cur : Option (String × QData)
deriving DecidableEq, Repr

/-- `questions[current_question] = current_data` when `current_question`
is set (`current_question and current_data` — both are truthy whenever
`current_question is not None`: the key starts with `Q` and the dict has
three entries). -/
def flushQ (st : QState) : List (String × QData) :=
  match st.cur with
  | some (q, d) => dinsert st.m q d
  | none => st.m

/-- One iteration of the `for line in lines` loop of
`parse_question_text`. -/
def qStep (st : QState) (raw : List Char) : QState :=
  let line := pyStrip raw
  if line.isEmpty then st
  else
    match matchQKey line with
    | some (ds, rest) =>
        { m := flushQ st
          cur := some (String.mk ('Q' :: ds),
            { question := String.mk (pyStrip rest), ideal_answer := "", marks := 1 }) }
    | none =>
        match st.cur with
        | some (q, d) =>
            match searchMarks line with
            | some n => { st with cur := some (q, { d with marks := n }) }
            | none =>
                let ia :=
                  if d.ideal_answer.data.isEmpty then String.mk line
                  else d.ideal_answer ++ " " ++ String.mk line
                { st with cur := some (q, { d with ideal_answer := ia }) }
        | none => st

/-- The result dict `{"subject": ..., "questions": ...}`. -/
structure QKeyResult where
  subject : String
  questions : List (String × QData)
deriving DecidableEq, Repr

/-- `parse_question_text`. -/
def parse_question_text (t : String) : QKeyResult :=
  { subject := detectSubject t.data
    questions := flushQ ((linesOf t).foldl qStep ⟨[], none⟩) }

end ParserAgent

namespace BackendOCR

/-- The label outcome of one raw line, exactly as the backend loop sees it:
`none` for a blank (after stripping) or unmatched line, otherwise the
canonical identifier `group(1)` the loop would assign. -/
def lineLabel (raw : List Char) : Option String :=
  let line := pyStrip raw
  if line.isEmpty then none
  else (matchLabel line).map (fun p => String.mk p.1)

/-- Backend scan state instrumented with the ordered list of flush events
`(identifier, flushed text)` — a verification artifact used to state the
overwrite/ordering guarantees. -/
structure BStateT where
  m : List (String × String)
  curQ : Option String
  buf : List (List Char)
  tr : List (String × String)
deriving DecidableEq, Repr

/-- Projection of the instrumented state onto the source's state. -/
def projT (st : BStateT) : BState :=
  ⟨st.m, st.curQ, st.buf⟩

/-- Instrumented flush: performs `flushB` and records the event. -/
def flushBT (st : BStateT) : BStateT :=
  match st.curQ with
  | some q =>
      let v := String.mk (pyStrip (joinSep [' '] st.buf))
      { st with m := dinsert st.m q v, tr := st.tr ++ [(q, v)] }
  | none => st

/-- Instrumented loop iteration (mirrors `backendStep`). -/
def backendStepT (st : BStateT) (rawLine : List Char) : BStateT :=
  let line := pyStrip rawLine
  if line.isEmpty then st
  else
    match matchLabel line with
    | some (digits, rest) =>
        let st' := flushBT st
        let remaining := pyStrip rest
        { st' with
          curQ := some (String.mk digits)
          buf := if remaining.isEmpty then [] else [remaining] }
    | none =>
        match st.curQ with
        | some _ => { st with buf := st.buf ++ [line] }
        | none => st

/-- Instrumented scan, loop plus final flush. -/
def scanT (ls : List (List Char)) : BStateT :=
  flushBT (ls.foldl backendStepT ⟨[], none, [], []⟩)

/-- The ordered flush events of one backend segmentation pass. -/
def flushTrace (t : String) : List (String × String) :=
  (scanT (linesOf t)).tr

end BackendOCR

/-- Replay a list of `(key, value)` events by Python-dict assignment. -/
def dfold (m : List (String × String)) (tr : List (String × String)) :
    List (String × String) :=
  tr.foldl (fun m p => dinsert m p.1 p.2) m

/-- First-appearance deduplication: keeps the first occurrence of each
element not already in `seen`, in order. -/
def firstAppearAux (seen : List String) : List String → List String
  | [] => []
  | k :: tl =>
      if k ∈ seen then firstAppearAux seen tl
      else k :: firstAppearAux (k :: seen) tl

/-- The value of the last event for key `k`, if any. -/
def lastValue (k : String) : List (String × String) → Option String
  | [] => none
  | p :: tl =>
      match lastValue k tl with
      | some v => some v
      | none => if p.1 = k then some p.2 else none

/-- Reading of a canonical identifier as an integer (the digit string's
decimal value). -/
def strVal (s : String) : Nat :=
  ParserAgent.digitsToNat s.data

/-- A bare decimal-digit key, as produced by the backend
`parse_exam_output` (`str` of the regex digit group). -/
def isDigitKey (k : String) : Prop :=
  k.data ≠ [] ∧ ∀ c ∈ k.data, c.isDigit = true

/-- A `Q`-prefixed key, as produced by `parse_question_text`
(`f"Q{match.group(1)}"`). -/
def isQKey (k : String) : Prop :=
  ∃ ds, k.data = 'Q' :: ds ∧ ds ≠ [] ∧ ∀ c ∈ ds, c.isDigit = true

section DictLemmas

theorem dinsert_fst {α : Type} (m : List (String × α)) (k : String) (v : α) :
    (dinsert m k v).map Prod.fst =
      if k ∈ m.map Prod.fst then m.map Prod.fst else m.map Prod.fst ++ [k] := by
  induction m with
  | nil => simp [dinsert]
  | cons p tl ih =>
      obtain ⟨k', v'⟩ := p
      by_cases h : k' = k
      · subst h
        simp [dinsert]
      · have hne : ¬k = k' := fun hh => h hh.symm
        simp only [dinsert, if_neg h, List.map_cons, ih, List.mem_cons]
        by_cases hk : k ∈ tl.map Prod.fst
        · simp [hk, hne]
        · simp [hk, hne]

theorem mem_dinsert_fst {α : Type} {m : List (String × α)} {k x : String} {v : α}
    (h : x ∈ (dinsert m k v).map Prod.fst) : x ∈ m.map Prod.fst ∨ x = k := by
  rw [dinsert_fst] at h
  by_cases hk : k ∈ m.map Prod.fst
  · rw [if_pos hk] at h
    exact Or.inl h
  · rw [if_neg hk] at h
    rcases List.mem_append.mp h with h1 | h1
    · exact Or.inl h1
    · exact Or.inr (List.mem_singleton.mp h1)

theorem dlookup_dinsert {α : Type} (m : List (String × α)) (k q : String) (v : α) :
    dlookup q (dinsert m k v) = if q = k then some v else dlookup q m := by
  induction m with
  | nil =>
      by_cases h : q = k
      · subst h; simp [dinsert, dlookup]
      · simp [dinsert, dlookup, h, Ne.symm h]
  | cons p tl ih =>
      obtain ⟨k', v'⟩ := p
      by_cases h1 : k' = k
      · subst h1
        by_cases h2 : q = k'
        · subst h2; simp [dinsert, dlookup]
        · simp [dinsert, dlookup, h2, Ne.symm h2]
      · by_cases h2 : q = k'
        · subst h2
          simp [dinsert, h1, dlookup, fun hh : q = k => h1 (hh ▸ rfl)]
        · simp [dinsert, h1, dlookup, Ne.symm h2, ih]

theorem dfold_append (m : List (String × String)) (tr1 tr2 : List (String × String)) :
    dfold m (tr1 ++ tr2) = dfold (dfold m tr1) tr2 := by
  simp [dfold, List.foldl_append]

theorem firstAppearAux_congr {s1 s2 : List String} (h : ∀ x, x ∈ s1 ↔ x ∈ s2) :
    ∀ l, firstAppearAux s1 l = firstAppearAux s2 l := by
  intro l
  induction l generalizing s1 s2 with
  | nil => simp [firstAppearAux]
  | cons k tl ih =>
      by_cases hk : k ∈ s1
      · simp [firstAppearAux, hk, (h k).mp hk, ih h]
      · have hk2 : k ∉ s2 := fun hh => hk ((h k).mpr hh)
        have h' : ∀ x, x ∈ k :: s1 ↔ x ∈ k :: s2 := by
          intro x; simp [List.mem_cons, h x]
        simp [firstAppearAux, hk, hk2, ih h']

theorem dfold_fst (tr : List (String × String)) :
    ∀ m : List (String × String),
      (dfold m tr).map Prod.fst =
        m.map Prod.fst ++ firstAppearAux (m.map Prod.fst) (tr.map Prod.fst) := by
  induction tr with
  | nil => intro m; simp [dfold, firstAppearAux]
  | cons p tl ih =>
      intro m
      obtain ⟨k, v⟩ := p
      have hstep : dfold m ((k, v) :: tl) = dfold (dinsert m k v) tl := rfl
      rw [hstep, ih]
      by_cases hk : k ∈ m.map Prod.fst
      · rw [dinsert_fst, if_pos hk]
        simp [firstAppearAux, hk]
      · rw [dinsert_fst, if_neg hk]
        have hcong : firstAppearAux (m.map Prod.fst ++ [k]) (tl.map Prod.fst)
            = firstAppearAux (k :: m.map Prod.fst) (tl.map Prod.fst) := by
          apply firstAppearAux_congr
          intro x; simp [List.mem_append, List.mem_cons, or_comm]
        simp [firstAppearAux, hk, hcong, List.append_assoc]

theorem firstAppearAux_nodup (l : List String) :
    ∀ seen, (firstAppearAux seen l).Nodup ∧ ∀ x ∈ firstAppearAux seen l, x ∉ seen := by
  induction l with
  | nil => intro seen; simp [firstAppearAux]
  | cons k tl ih =>
      intro seen
      by_cases hk : k ∈ seen
      · simpa [firstAppearAux, hk] using ih seen
      · obtain ⟨hnd, hmem⟩ := ih (k :: seen)
        refine ⟨?_, ?_⟩
        · simp only [firstAppearAux]
          rw [if_neg hk, List.nodup_cons]
          exact ⟨fun hx => (hmem k hx) (List.mem_cons_self k seen), hnd⟩
        · intro x hx
          simp only [firstAppearAux] at hx
          rw [if_neg hk] at hx
          rcases List.mem_cons.mp hx with rfl | hx2
          · exact hk
          · exact fun hs => (hmem x hx2) (List.mem_cons_of_mem k hs)

theorem dlookup_dfold (tr : List (String × String)) :
    ∀ (m : List (String × String)) (q : String),
      dlookup q (dfold m tr) =
        match lastValue q tr with
        | some v => some v
        | none => dlookup q m := by
  induction tr with
  | nil => intro m q; simp [dfold, lastValue]
  | cons p tl ih =>
      intro m q
      obtain ⟨k, v⟩ := p
      have hstep : dfold m ((k, v) :: tl) = dfold (dinsert m k v) tl := rfl
      rw [hstep, ih]
      cases hlv : lastValue q tl with
      | some v' => simp [lastValue, hlv]
      | none =>
          by_cases hq : q = k
          · subst hq
            simp [lastValue, hlv, dlookup_dinsert]
          · simp only [lastValue, hlv, dlookup_dinsert, if_neg hq]
            rw [if_neg (fun hh : k = q => hq hh.symm)]

end DictLemmas

section BackendScanLemmas

open BackendOCR

theorem projT_flushBT (st : BStateT) :
    (flushBT st).m = flushB (projT st) ∧ (flushBT st).curQ = st.curQ ∧
      (flushBT st).buf = st.buf := by
  cases hq : st.curQ with
  | none => simp [flushBT, flushB, projT, hq]
  | some q => simp [flushBT, flushB, projT, hq]

theorem projT_step (st : BStateT) (raw : List Char) :
    projT (backendStepT st raw) = backendStep (projT st) raw := by
  obtain ⟨m, q, b, tr⟩ := st
  simp only [backendStepT, backendStep, projT]
  by_cases hb : (pyStrip raw).isEmpty
  · simp [hb]
  · simp only [hb, Bool.false_eq_true, if_false]
    cases hm : matchLabel (pyStrip raw) with
    | none => cases q <;> simp [hm, projT]
    | some p =>
        obtain ⟨ds, rest⟩ := p
        cases q <;> simp [hm, flushBT, flushB, projT]

theorem projT_foldl (ls : List (List Char)) :
    ∀ st : BStateT, projT (ls.foldl backendStepT st) = ls.foldl backendStep (projT st) := by
  induction ls with
  | nil => intro st; rfl
  | cons l tl ih =>
      intro st
      simp only [List.foldl_cons, ih, projT_step]

theorem scanT_m (ls : List (List Char)) : (scanT ls).m = backendScan ls := by
  unfold scanT backendScan
  rw [(projT_flushBT _).1, projT_foldl]
  rfl

theorem stepT_dfold (st : BStateT) (raw : List Char) (m0 : List (String × String))
    (h : st.m = dfold m0 st.tr) :
    (backendStepT st raw).m = dfold m0 (backendStepT st raw).tr := by
  obtain ⟨m, q, b, tr⟩ := st
  simp only at h
  simp only [backendStepT]
  by_cases hb : (pyStrip raw).isEmpty
  · simpa [hb] using h
  · simp only [hb, Bool.false_eq_true, if_false]
    cases hm : matchLabel (pyStrip raw) with
    | none => cases q <;> simpa [hm] using h
    | some p =>
        obtain ⟨ds, rest⟩ := p
        cases q with
        | none => simpa [hm, flushBT] using h
        | some k =>
            simp only [hm, flushBT, dfold_append, h]
            rfl

theorem foldl_stepT_dfold (ls : List (List Char)) :
    ∀ (st : BStateT) (m0 : List (String × String)), st.m = dfold m0 st.tr →
      (ls.foldl backendStepT st).m = dfold m0 (ls.foldl backendStepT st).tr := by
  induction ls with
  | nil => intro st m0 h; exact h
  | cons l tl ih =>
      intro st m0 h
      simp only [List.foldl_cons]
      exact ih _ m0 (stepT_dfold st l m0 h)

theorem flushBT_dfold (st : BStateT) (m0 : List (String × String))
    (h : st.m = dfold m0 st.tr) :
    (flushBT st).m = dfold m0 (flushBT st).tr := by
  cases hq : st.curQ with
  | none => simpa [flushBT, hq] using h
  | some q =>
      simp only [flushBT, hq, dfold_append, h]
      rfl

theorem parse_eq_dfold (t : String) :
    parse_exam_output t = dfold [] (flushTrace t) := by
  have h0 : (⟨[], none, [], []⟩ : BStateT).m = dfold [] (⟨[], none, [], []⟩ : BStateT).tr := rfl
  have h1 := flushBT_dfold _ [] (foldl_stepT_dfold (linesOf t) _ [] h0)
  show backendScan (linesOf t) = dfold [] (flushTrace t)
  rw [← scanT_m (linesOf t)]
  exact h1

end BackendScanLemmas

section TraceLemmas

open BackendOCR

theorem traceKeys (ls : List (List Char)) :
    ∀ (m : List (String × String)) (q : Option String) (b : List (List Char))
      (tr : List (String × String)),
      ((flushBT (ls.foldl backendStepT ⟨m, q, b, tr⟩)).tr).map Prod.fst
        = tr.map Prod.fst ++ (match q with | some k => [k] | none => [])
            ++ ls.filterMap lineLabel := by
  induction ls with
  | nil =>
      intro m q b tr
      cases q <;> simp [flushBT]
  | cons l tl ih =>
      intro m q b tr
      simp only [List.foldl_cons, List.filterMap_cons]
      by_cases hb : (pyStrip l).isEmpty
      · have hstep : backendStepT ⟨m, q, b, tr⟩ l = ⟨m, q, b, tr⟩ := by
          simp [backendStepT, hb]
        have hl : lineLabel l = none := by simp [lineLabel, hb]
        rw [hstep, hl, ih]
      · cases hm : matchLabel (pyStrip l) with
        | none =>
            have hl : lineLabel l = none := by simp [lineLabel, hb, hm]
            rw [hl]
            cases q with
            | none =>
                have hstep : backendStepT ⟨m, none, b, tr⟩ l = ⟨m, none, b, tr⟩ := by
                  simp [backendStepT, hb, hm]
                rw [hstep, ih]
            | some k =>
                have hstep : backendStepT ⟨m, some k, b, tr⟩ l
                    = ⟨m, some k, b ++ [pyStrip l], tr⟩ := by
                  simp [backendStepT, hb, hm]
                rw [hstep, ih]
        | some p =>
            obtain ⟨ds, rest⟩ := p
            have hl : lineLabel l = some (String.mk ds) := by
              simp [lineLabel, hb, hm]
            rw [hl]
            cases q with
            | none =>
                have hstep : backendStepT ⟨m, none, b, tr⟩ l
                    = ⟨m, some (String.mk ds),
                        if (pyStrip rest).isEmpty then [] else [pyStrip rest], tr⟩ := by
                  simp [backendStepT, hb, hm, flushBT]
                rw [hstep, ih]
                simp
            | some k =>
                have hstep : backendStepT ⟨m, some k, b, tr⟩ l
                    = ⟨dinsert m k (String.mk (pyStrip (joinSep [' '] b))),
                        some (String.mk ds),
                        if (pyStrip rest).isEmpty then [] else [pyStrip rest],
                        tr ++ [(k, String.mk (pyStrip (joinSep [' '] b)))]⟩ := by
                  simp [backendStepT, hb, hm, flushBT]
                rw [hstep, ih]
                simp

theorem flushTrace_keys (t : String) :
    (BackendOCR.flushTrace t).map Prod.fst = (linesOf t).filterMap lineLabel := by
  have h := traceKeys (linesOf t) [] none [] []
  simpa [flushTrace, scanT] using h

theorem backendStep_no_label (st : BState) (l : List Char)
    (hq : st.curQ = none) (hl : lineLabel l = none) :
    backendStep st l = st := by
  by_cases hb : (pyStrip l).isEmpty
  · simp [backendStep, hb]
  · have hm : matchLabel (pyStrip l) = none := by
      simpa [lineLabel, hb, Option.map_eq_none'] using hl
    simp [backendStep, hb, hm, hq]

theorem foldl_no_label :
    ∀ ls : List (List Char), (∀ l ∈ ls, lineLabel l = none) →
      ls.foldl backendStep ⟨[], none, []⟩ = ⟨[], none, []⟩ := by
  intro ls
  induction ls with
  | nil => intro _; rfl
  | cons l tl ih =>
      intro h
      simp only [List.foldl_cons]
      rw [backendStep_no_label _ _ rfl (h l (List.mem_cons_self l tl))]
      exact ih fun x hx => h x (List.mem_cons_of_mem l hx)

end TraceLemmas

section KeyFormatLemmas

theorem matchFrom_digits {cs ds r : List Char}
    (h : BackendOCR.matchFrom cs = some (ds, r)) :
    ds ≠ [] ∧ ∀ c ∈ ds, c.isDigit = true := by
  simp only [BackendOCR.matchFrom] at h
  by_cases he : ((cs.dropWhile pyIsSpace).takeWhile Char.isDigit).isEmpty
  · simp [he] at h
  · simp only [he, Bool.false_eq_true, if_false, Option.some.injEq, Prod.mk.injEq] at h
    obtain ⟨h1, _⟩ := h
    subst h1
    refine ⟨?_, fun c hc => List.mem_takeWhile_imp hc⟩
    intro hnil
    rw [hnil] at he
    exact he rfl

theorem matchLabel_digits {cs ds r : List Char}
    (h : BackendOCR.matchLabel cs = some (ds, r)) :
    ds ≠ [] ∧ ∀ c ∈ ds, c.isDigit = true := by
  cases cs with
  | nil => simp [BackendOCR.matchLabel] at h
  | cons c tl =>
      simp only [BackendOCR.matchLabel] at h
      split at h
      · exact matchFrom_digits h
      · exact matchFrom_digits h

theorem qTail_digits {cs ds r : List Char}
    (h : ParserAgent.qTail cs = some (ds, r)) :
    ds ≠ [] ∧ ∀ c ∈ ds, c.isDigit = true := by
  simp only [ParserAgent.qTail] at h
  by_cases he : (cs.takeWhile Char.isDigit).isEmpty
  · simp [he] at h
  · simp only [he, Bool.false_eq_true, if_false, Option.some.injEq, Prod.mk.injEq] at h
    obtain ⟨h1, _⟩ := h
    subst h1
    refine ⟨?_, fun c hc => List.mem_takeWhile_imp hc⟩
    intro hnil
    rw [hnil] at he
    exact he rfl

theorem matchQKey_digits {cs ds r : List Char}
    (h : ParserAgent.matchQKey cs = some (ds, r)) :
    ds ≠ [] ∧ ∀ c ∈ ds, c.isDigit = true := by
  unfold ParserAgent.matchQKey at h
  split at h
  all_goals try split at h
  all_goals try split at h
  all_goals try split at h
  all_goals try exact qTail_digits h
  all_goals
    injection h with h2
    subst h2
    exact qTail_digits (by assumption)

end KeyFormatLemmas

section KeyInvariants

open BackendOCR ParserAgent

theorem flushB_keys (st : BState)
    (h1 : ∀ k ∈ st.m.map Prod.fst, isDigitKey k)
    (h2 : ∀ k, st.curQ = some k → isDigitKey k) :
    ∀ k ∈ (flushB st).map Prod.fst, isDigitKey k := by
  cases hq : st.curQ with
  | none => simpa [flushB, hq] using h1
  | some q =>
      intro k hk
      simp only [flushB, hq] at hk
      rcases mem_dinsert_fst hk with hk1 | rfl
      · exact h1 k hk1
      · exact h2 k hq

theorem backendStep_keys (st : BState) (l : List Char)
    (h1 : ∀ k ∈ st.m.map Prod.fst, isDigitKey k)
    (h2 : ∀ k, st.curQ = some k → isDigitKey k) :
    (∀ k ∈ (backendStep st l).m.map Prod.fst, isDigitKey k)
      ∧ ∀ k, (backendStep st l).curQ = some k → isDigitKey k := by
  by_cases hb : (pyStrip l).isEmpty
  · have hst : backendStep st l = st := by simp [backendStep, hb]
    rw [hst]
    exact ⟨h1, h2⟩
  · cases hm : matchLabel (pyStrip l) with
    | some p =>
        obtain ⟨dsx, restx⟩ := p
        have hst : backendStep st l
            = ⟨flushB st, some (String.mk dsx),
                if (pyStrip restx).isEmpty then [] else [pyStrip restx]⟩ := by
          simp [backendStep, hb, hm]
        rw [hst]
        refine ⟨flushB_keys st h1 h2, ?_⟩
        intro k hk
        obtain ⟨hne, hdig⟩ := matchLabel_digits hm
        injection hk with hk2
        subst hk2
        exact ⟨hne, hdig⟩
    | none =>
        cases hq : st.curQ with
        | some q0 =>
            have hst : backendStep st l = { st with buf := st.buf ++ [pyStrip l] } := by
              simp [backendStep, hb, hm, hq]
            rw [hst]
            exact ⟨h1, h2⟩
        | none =>
            have hst : backendStep st l = st := by simp [backendStep, hb, hm, hq]
            rw [hst]
            exact ⟨h1, h2⟩

theorem foldl_backendStep_keys :
    ∀ (ls : List (List Char)) (st : BState),
      (∀ k ∈ st.m.map Prod.fst, isDigitKey k) →
      (∀ k, st.curQ = some k → isDigitKey k) →
      (∀ k ∈ (ls.foldl backendStep st).m.map Prod.fst, isDigitKey k)
        ∧ ∀ k, (ls.foldl backendStep st).curQ = some k → isDigitKey k := by
  intro ls
  induction ls with
  | nil => intro st h1 h2; exact ⟨h1, h2⟩
  | cons l tl ih =>
      intro st h1 h2
      obtain ⟨g1, g2⟩ := backendStep_keys st l h1 h2
      simpa using ih (backendStep st l) g1 g2

theorem parse_keys (t : String) :
    ∀ k ∈ (parse_exam_output t).map Prod.fst, isDigitKey k := by
  obtain ⟨g1, g2⟩ := foldl_backendStep_keys (linesOf t) ⟨[], none, []⟩
      (by simp) (fun k hk => by simp at hk)
  exact flushB_keys _ g1 g2

theorem flushQ_keys (st : QState)
    (h1 : ∀ k ∈ st.m.map Prod.fst, isQKey k)
    (h2 : ∀ k d, st.cur = some (k, d) → isQKey k) :
    ∀ k ∈ (flushQ st).map Prod.fst, isQKey k := by
  cases hq : st.cur with
  | none => simpa [flushQ, hq] using h1
  | some p =>
      obtain ⟨q, d⟩ := p
      intro k hk
      simp only [flushQ, hq] at hk
      rcases mem_dinsert_fst hk with hk1 | rfl
      · exact h1 k hk1
      · exact h2 k d hq

theorem qStep_keys (st : QState) (l : List Char)
    (h1 : ∀ k ∈ st.m.map Prod.fst, isQKey k)
    (h2 : ∀ k d, st.cur = some (k, d) → isQKey k) :
    (∀ k ∈ (qStep st l).m.map Prod.fst, isQKey k)
      ∧ ∀ k d, (qStep st l).cur = some (k, d) → isQKey k := by
  by_cases hb : (pyStrip l).isEmpty
  · have hst : qStep st l = st := by simp [qStep, hb]
    rw [hst]
    exact ⟨h1, h2⟩
  · cases hm : matchQKey (pyStrip l) with
    | some p =>
        obtain ⟨dsx, restx⟩ := p
        have hst : qStep st l
            = ⟨flushQ st,
                some (String.mk ('Q' :: dsx),
                  { question := String.mk (pyStrip restx), ideal_answer := "", marks := 1 })⟩ := by
          simp [qStep, hb, hm]
        rw [hst]
        refine ⟨flushQ_keys st h1 h2, ?_⟩
        intro k d hk
        obtain ⟨hne, hdig⟩ := matchQKey_digits hm
        injection hk with hk2
        cases hk2
        exact ⟨dsx, rfl, hne, hdig⟩
    | none =>
        cases hq : st.cur with
        | some p =>
            obtain ⟨q0, d0⟩ := p
            cases hmk : searchMarks (pyStrip l) with
            | some n =>
                have hst : qStep st l
                    = { st with cur := some (q0, { d0 with marks := n }) } := by
                  simp [qStep, hb, hm, hq, hmk]
                rw [hst]
                refine ⟨h1, ?_⟩
                intro k d hk
                injection hk with hk2
                cases hk2
                exact h2 q0 d0 hq
            | none =>
                have hst : qStep st l
                    = { st with cur := some (q0,
                        { d0 with ideal_answer :=
                            if d0.ideal_answer.data.isEmpty then String.mk (pyStrip l)
                            else d0.ideal_answer ++ " " ++ String.mk (pyStrip l) }) } := by
                  simp [qStep, hb, hm, hq, hmk]
                rw [hst]
                refine ⟨h1, ?_⟩
                intro k d hk
                injection hk with hk2
                cases hk2
                exact h2 q0 d0 hq
        | none =>
            have hst : qStep st l = st := by simp [qStep, hb, hm, hq]
            rw [hst]
            exact ⟨h1, h2⟩

theorem foldl_qStep_keys :
    ∀ (ls : List (List Char)) (st : QState),
      (∀ k ∈ st.m.map Prod.fst, isQKey k) →
      (∀ k d, st.cur = some (k, d) → isQKey k) →
      (∀ k ∈ (ls.foldl qStep st).m.map Prod.fst, isQKey k)
        ∧ ∀ k d, (ls.foldl qStep st).cur = some (k, d) → isQKey k := by
  intro ls
  induction ls with
  | nil => intro st h1 h2; exact ⟨h1, h2⟩
  | cons l tl ih =>
      intro st h1 h2
      obtain ⟨g1, g2⟩ := qStep_keys st l h1 h2
      simpa using ih (qStep st l) g1 g2

theorem questions_keys (t : String) :
    ∀ k ∈ (parse_question_text t).questions.map Prod.fst, isQKey k := by
  obtain ⟨g1, g2⟩ := foldl_qStep_keys (linesOf t) ⟨[], none⟩
      (by simp) (fun k d hk => by simp at hk)
  exact flushQ_keys _ g1 g2

theorem digitKey_not_qKey {k : String} (h1 : isDigitKey k) (h2 : isQKey k) : False := by
  obtain ⟨_, hall⟩ := h1
  obtain ⟨ds, hdata, _, _⟩ := h2
  have hQ : ('Q' : Char).isDigit = true :=
    hall 'Q' (by rw [hdata]; exact List.mem_cons_self _ _)
  exact absurd hQ (by decide)

end KeyInvariants

section DigitLineLemmas

theorem digit_not_space {c : Char} (h : c.isDigit = true) : pyIsSpace c = false := by
  cases hs : pyIsSpace c
  · rfl
  · exfalso
    simp only [pyIsSpace, Bool.or_eq_true, decide_eq_true_eq] at hs
    rcases hs with ((((rfl | rfl) | rfl) | rfl) | rfl) | rfl <;> exact absurd h (by decide)

end DigitLineLemmas

/-- C1 counterexample: on the input lines `"Q1) answer one"`, `"Q5) answer two"`
the backend `parse_exam_output` does not assign the identifiers `"1"`, `"2"`
the claim demands. -/
theorem ocr_counter_trust_cex :
    (BackendOCR.parse_exam_output "Q1) answer one\nQ5) answer two").map Prod.fst
      ≠ ["1", "2"] := by decide

/-- C1 amended: the backend `parse_exam_output` has no running counter at
all; it always uses the literal digit group as the identifier, so the
input yields identifiers `"1"` and `"5"` with their remainder texts. -/
theorem ocr_counter_trust_amended :
    BackendOCR.parse_exam_output "Q1) answer one\nQ5) answer two"
      = [("1", "answer one"), ("5", "answer two")] := by decide

/-- C2 counterexample: the end-to-end scenario does not produce
newline-joined buffers. -/
theorem ocr_end_to_end_cex :
    BackendOCR.parse_exam_output
        "Q1. What is gravity?\nIt pulls objects down.\n\nQ2) Explain inertia\nObjects resist change."
      ≠ [("1", "What is gravity?\nIt pulls objects down."),
          ("2", "Explain inertia\nObjects resist change.")] := by decide

/-- C2 amended: the backend `parse_exam_output` joins each question's
buffered lines with a single space (`" ".join`), not a newline; on the
scenario input the remainder seeds the buffer, the continuation line is
appended, the blank line is dropped, and the flushed values are
space-joined. -/
theorem ocr_end_to_end_amended :
    BackendOCR.parse_exam_output
        "Q1. What is gravity?\nIt pulls objects down.\n\nQ2) Explain inertia\nObjects resist change."
      = [("1", "What is gravity? It pulls objects down."),
          ("2", "Explain inertia Objects resist change.")] := by decide

/-- C3 counterexample: alphabetic label lines are not mapped to the
identifiers `"1"`, `"2"`, `"3"`. -/
theorem ocr_alphabetic_cex :
    (BackendOCR.parse_exam_output "a) first\nb) second\nc) third").map Prod.fst
      ≠ ["1", "2", "3"] := by decide

/-- C3 amended: the backend label regex has no alphabetic rule — a line
starting with a letter other than `Q`/`q` followed by no digits matches
nothing, and with no question open all three lines are discarded, so the
input yields the empty map. -/
theorem ocr_alphabetic_amended :
    BackendOCR.parse_exam_output "a) first\nb) second\nc) third" = [] := by decide

/-- C4 counterexample: on `"Q5) x\nQ2) y"` the identifier sequence produced
by the backend scan is `"5", "2"` — read as integers it is decreasing, so
the non-decreasing invariant fails. -/
theorem ocr_nondecreasing_cex :
    ¬ List.Chain' (fun a b => a ≤ b)
        (((BackendOCR.flushTrace "Q5) x\nQ2) y").map Prod.fst).map strVal) := by
  have h : (((BackendOCR.flushTrace "Q5) x\nQ2) y").map Prod.fst).map strVal) = [5, 2] := by
    decide
  rw [h, List.chain'_cons]
  rintro ⟨h52, -⟩
  omega

/-- C4 amended: the identifier sequence of the backend scan is exactly the
per-line literal label of each matching line (`group(1)` of the regex), in
scan order — a line-local quantity with no counter and no monotonicity
guarantee. -/
theorem ocr_id_trace_amended (t : String) :
    (BackendOCR.flushTrace t).map Prod.fst
      = (linesOf t).filterMap BackendOCR.lineLabel :=
  flushTrace_keys t

/-- C5 counterexample: assembling the two pages with a blank-line separator
and segmenting does not give the newline-joined value claimed. -/
theorem ocr_pagebreak_cex :
    BackendOCR.parse_exam_output
        (assemblePages ["Q1) start of answer", "continuation of answer"])
      ≠ [("1", "start of answer\ncontinuation of answer")] := by decide

/-- C5 amended: the blank separator line is indeed transparent (the block
stays open across the page boundary and the blank line leaves no trace),
but the backend joins the buffer with a space, so the single entry's value
is space-joined. -/
theorem ocr_pagebreak_amended :
    BackendOCR.parse_exam_output
        (assemblePages ["Q1) start of answer", "continuation of answer"])
      = [("1", "start of answer continuation of answer")] := by decide

/-- C6 counterexample: the line `"1999 was the year"` (digits with neither
`)` nor `.` and no `Q` marker) is recognized as a label — it opens a new
block `"1999"` instead of continuing block `"1"`. -/
theorem ocr_bare_digits_cex :
    BackendOCR.matchLabel "1999 was the year".data ≠ none
    ∧ BackendOCR.parse_exam_output "Q1) a\n1999 was the year"
        = [("1", "a"), ("1999", "was the year")] := by decide

/-- C6 amended: the separator class `[.)\s-]*` of the backend regex is
optional, so every line beginning with a digit is recognized as a label:
the identifier is the maximal leading digit run and the remainder is the
text after the maximal separator run. -/
theorem ocr_bare_digits_amended (c : Char) (cs : List Char) (h : c.isDigit = true) :
    BackendOCR.matchLabel (c :: cs)
      = some (c :: cs.takeWhile Char.isDigit,
          (cs.dropWhile Char.isDigit).dropWhile BackendOCR.isSep) := by
  have h1 : c ≠ 'Q' := fun e => absurd (e ▸ h) (by decide)
  have h2 : c ≠ 'q' := fun e => absurd (e ▸ h) (by decide)
  simp [BackendOCR.matchLabel, BackendOCR.matchFrom, h1, h2, digit_not_space h, h,
    List.takeWhile_cons, List.dropWhile_cons]

/-- C6 witness: the amended statement applied to the line
`"1999 was the year"`. -/
theorem ocr_bare_digits_amended_witness :
    BackendOCR.matchLabel ('1' :: "999 was the year".data)
      = some ('1' :: ("999 was the year".data).takeWhile Char.isDigit,
          (("999 was the year".data).dropWhile Char.isDigit).dropWhile BackendOCR.isSep) :=
  ocr_bare_digits_amended '1' ("999 was the year".data) (by decide)

/-- C7: the backend `parse_exam_output` is a total function of its input
(by construction of the embedding — no exception paths exist), and on any
input none of whose lines is recognized as a label it returns the empty
map. -/
theorem ocr_no_label_empty_map (t : String)
    (h : ∀ l ∈ linesOf t, BackendOCR.lineLabel l = none) :
    BackendOCR.parse_exam_output t = [] := by
  show BackendOCR.backendScan (linesOf t) = []
  rw [BackendOCR.backendScan, foldl_no_label (linesOf t) h]
  rfl

/-- C7 witness: a label-free document yields the empty map. -/
theorem ocr_no_label_empty_map_witness :
    BackendOCR.parse_exam_output "hello world\nno labels here" = [] :=
  ocr_no_label_empty_map "hello world\nno labels here" (by decide)

/-- C8: Python-dict semantics of the backend result map — keys are
pairwise distinct, ordered by first appearance of each identifier in the
flush-event trace, and each key's value is the last value flushed for it
(a later flush overwrites, never appends). -/
theorem ocr_dict_overwrite_order (t : String) :
    ((BackendOCR.parse_exam_output t).map Prod.fst).Nodup
    ∧ (BackendOCR.parse_exam_output t).map Prod.fst
        = firstAppearAux [] ((BackendOCR.flushTrace t).map Prod.fst)
    ∧ ∀ k, dlookup k (BackendOCR.parse_exam_output t)
        = lastValue k (BackendOCR.flushTrace t) := by
  have hp := parse_eq_dfold t
  refine ⟨?_, ?_, ?_⟩
  · rw [hp, dfold_fst]
    simpa using (firstAppearAux_nodup ((BackendOCR.flushTrace t).map Prod.fst) []).1
  · rw [hp, dfold_fst]
    simp
  · intro k
    rw [hp, dlookup_dfold]
    cases hlv : lastValue k (BackendOCR.flushTrace t) <;> simp [dlookup]

/-- C9: the two `OCREngine.parse_exam_output` implementations (backend and
top-level) are not extensionally equal — on the given text the backend
drops the label prefix and joins with spaces while the top-level keeps the
whole label line and joins with newlines. -/
theorem ocr_parsers_diverge :
    ∃ t : String, BackendOCR.parse_exam_output t ≠ RootOCR.parse_exam_output t :=
  ⟨"Q1. What is gravity?\nIt pulls objects down.", by decide⟩

/-- C10: every key of the backend student-answer map is a bare nonempty
digit string, every key of the `questions` map of `parse_question_text` is
`Q` followed by a nonempty digit string, and consequently the two maps
never share a key. -/
theorem grading_key_format_mismatch (ts tq : String) :
    (∀ k ∈ (BackendOCR.parse_exam_output ts).map Prod.fst, isDigitKey k)
    ∧ (∀ k ∈ (ParserAgent.parse_question_text tq).questions.map Prod.fst, isQKey k)
    ∧ ∀ k ∈ (BackendOCR.parse_exam_output ts).map Prod.fst,
        k ∉ (ParserAgent.parse_question_text tq).questions.map Prod.fst := by
  refine ⟨parse_keys ts, questions_keys tq, ?_⟩
  intro k hk hkq
  exact digitKey_not_qKey (parse_keys ts k hk) (questions_keys tq k hkq)

/-- C10 witness: the key `"1"` produced by the backend for a concrete
submission is absent from the `questions` map of a concrete question key
(whose only key is `"Q1"`). -/
theorem grading_key_format_mismatch_witness :
    "1" ∉ (ParserAgent.parse_question_text
        "Q1. What is gravity?\nGravity pulls objects.").questions.map Prod.fst :=
  (grading_key_format_mismatch "Q1) gravity pulls things down"
      "Q1. What is gravity?\nGravity pulls objects.").2.2 "1" (by decide)
